import Mathlib

/-!
Verification of the `ralph-eval` repository against its natural-language
specification.

The repository ships two interactive Python scripts, `src/scripts/release.py`
and `src/scripts/init-template.py`; their pure content (string validation and
rewriting, the status log, the control-flow skeleton around failures) is
embedded below.  Python strings are modelled as `List Char`; file and
terminal I/O becomes explicit value passing; subprocess results are passed in
as data.  The agent tool-use loop described by the specification has no
sources in the repository, so its data model, tool executor and conversation
loop are modelled from the specification text itself; those definitions say
so in their doc comments.
-/

/-- Python `str` values are modelled as lists of characters. -/
abbrev PyStr := List Char

/-- View a Lean string literal as the character-list model of a Python string. -/
def chars (s : String) : PyStr := s.toList

/-- Characters removed by Python `str.strip()` with no argument. -/
def pyWS (c : Char) : Bool :=
  c == ' ' || c == '\t' || c == '\n' || c == '\r' || c == '\x0b' || c == '\x0c'

/-- Python `str.strip()`: drop leading and trailing whitespace. -/
def pyStrip (s : PyStr) : PyStr :=
  ((s.dropWhile pyWS).reverse.dropWhile pyWS).reverse

/-- ANSI escape sequence of `Colors.YELLOW` in both scripts. -/
def yellowCode : String := "\x1b[93m"

/-- ANSI escape sequence of `Colors.RESET` in both scripts. -/
def resetCode : String := "\x1b[0m"

/-- Model of `colored_print(message, Colors.YELLOW)`: the exact string written
to the terminal (`release.py` lines 22-33, `init-template.py` lines 22-33). -/
def colored_yellow (message : String) : String :=
  yellowCode ++ message ++ resetCode

/-- Outcome of `run_command` in `src/scripts/release.py` (lines 55-81): either
the process terminates through `exit(result.returncode)`, or the call returns
normally with the optionally captured stdout. -/
inductive CmdOutcome
  | exited (code : Int)
  | normal (captured : Option String)
deriving DecidableEq

/-- What one `run_command` call does: the terminal lines it writes and how it
ends. -/
structure CmdEffect where
  printed : List String
  outcome : CmdOutcome
deriving DecidableEq

/-- Model of `run_command` in `src/scripts/release.py` (lines 55-81).  The
subprocess itself is outside the program; its observed `returncode` and
`stdout` are passed in as data.  A non-zero return code prints the error line
and exits with that code; otherwise the call returns, with `stdout.strip()`
when `capture_stdout` is set. -/
def run_command (command : List String) (returncode : Int) (stdout : String)
    (capture_stdout : Bool) : CmdEffect :=
  let joined := String.intercalate " " command
  let pre := colored_yellow ("Running command: " ++ joined)
  if returncode ≠ 0 then
    ⟨[pre, colored_yellow ("Error running command: " ++ joined)], .exited returncode⟩
  else if capture_stdout then
    ⟨[pre], .normal (some (String.mk (pyStrip stdout.toList)))⟩
  else
    ⟨[pre], .normal none⟩

/-- Python exceptions relevant to the scripts' `try` blocks. -/
inductive PyExn
  | keyboardInterrupt
  | error (message : String)
deriving DecidableEq

/-- Sequential execution of the straight-line body of a `try` block: each step
either updates the state or raises, and a raise aborts everything after it. -/
def runSteps {σ : Type} (steps : List (σ → Except PyExn σ)) (s : σ) :
    Except PyExn σ :=
  match steps with
  | [] => .ok s
  | step :: rest =>
    match step s with
    | .ok s2 => runSteps rest s2
    | .error e => .error e

/-- How `main` of `src/scripts/init-template.py` ends (lines 481-485): normal
completion, the `KeyboardInterrupt` handler (print, swallow, script ends), or
the generic handler (print, then `raise` re-propagates and the process dies). -/
inductive InitMainResult
  | completed
  | interrupted (printedMessage : String)
  | errored (printedMessage : String) (message : String)
deriving DecidableEq

/-- Model of the `try/except` skeleton of `main` in
`src/scripts/init-template.py` (lines 337, 481-485): the whole step sequence
runs inside one `try`; `KeyboardInterrupt` prints and is swallowed (the script
then ends), any other exception prints and is re-raised. -/
def init_main {σ : Type} (steps : List (σ → Except PyExn σ)) (s : σ) :
    InitMainResult :=
  match runSteps steps s with
  | .ok _ => .completed
  | .error .keyboardInterrupt =>
    .interrupted (colored_yellow "\n\nInitialization interrupted.")
  | .error (.error m) =>
    .errored (colored_yellow ("\n\nError during initialization: " ++ m)) m

/-- Model of `print_summary` in both scripts (`release.py` lines 141-149,
`init-template.py` lines 55-63): the exact terminal lines written by the
`atexit` handler, one heading plus one line per status entry, in order. -/
def print_summary (status : List String) : List String :=
  colored_yellow "\nSummary of completed steps:" ::
    status.map (fun s => colored_yellow ("- " ++ s))

/-- Status-list effect of release.py step 1 (line 189). -/
def release_step_start (st : List String) : List String :=
  st ++ ["Started release process"]

/-- Status-list effect of release.py step 2 (line 197). -/
def release_step_ci (st : List String) : List String :=
  st ++ ["Checked main branch and CI status"]

/-- Status-list effect of the version step of release.py (line 202). -/
def release_step_version (release_version : String) (st : List String) : List String :=
  st ++ ["Release version set to " ++ release_version]

/-- Status-list effect of release.py step 4 (line 215). -/
def release_step_branch (branch : String) (st : List String) : List String :=
  st ++ ["Created and switched to branch " ++ branch]

/-- Status-list effect of release.py step 5 (line 257). -/
def release_step_bump (st : List String) : List String :=
  st ++ ["Bumped all versions"]

/-- Status-list effect of release.py step 6 (lines 260-264): the block prints
and advances the step counter but its `status.append` is commented out, so the
status list is unchanged. -/
def release_step_lockfile (st : List String) : List String := st

/-- Status-list effect of release.py step 7 (line 288). -/
def release_step_changelog (st : List String) : List String :=
  st ++ ["Updated the changelog"]

/-- Status-list effect of release.py step 8 (lines 291-294): the lint block
runs the linter and advances the step counter but never appends to `status`. -/
def release_step_lint (st : List String) : List String := st

/-- Status-list effect of release.py step 9 (line 299). -/
def release_step_commit (st : List String) : List String :=
  st ++ ["Committed the changes"]

/-- Status-list effect of release.py step 10 (line 307). -/
def release_step_push (st : List String) : List String :=
  st ++ ["Pushed the changes"]

/-- Status-list effect of release.py step 11 (line 317). -/
def release_step_pr (st : List String) : List String :=
  st ++ ["Created and merged the release prep PR"]

/-- Status-list effect of the final message of release.py `main` (line 330). -/
def release_step_done (st : List String) : List String :=
  st ++ ["Release process completed successfully"]

/-- The status-list operations performed by `main` of `src/scripts/release.py`
when every step runs, in program order. -/
def releaseStatusOps (release_version : String) : List (List String → List String) :=
  [release_step_start, release_step_ci, release_step_version release_version,
   release_step_branch ("bump/prepare-v" ++ release_version),
   release_step_bump, release_step_lockfile, release_step_changelog,
   release_step_lint, release_step_commit, release_step_push,
   release_step_pr, release_step_done]

/-- Status-list effect of init-template.py step 1 (line 364). -/
def init_step_gather (st : List String) : List String :=
  st ++ ["Gathered project information"]

/-- Status-list effect of one `update_file` call in init-template.py
(line 286): append the given description. -/
def init_step_update (description : String) (st : List String) : List String :=
  st ++ [description]

/-- Status-list effect of init-template.py step 3 (line 408). -/
def init_step_pixi (st : List String) : List String :=
  st ++ ["Updated pixi.toml"]

/-- Model of the status effect of `rename_directory` in
`src/scripts/init-template.py` (lines 290-308): append the description when
the source directory exists, otherwise print a warning and append nothing. -/
def rename_directory (dirExists : Bool) (description : String)
    (st : List String) : List String :=
  if dirExists then st ++ [description] else st

/-- Status-list effect of init-template.py step 8 (line 457). -/
def init_step_tbump (st : List String) : List String :=
  st ++ ["Updated tbump.toml"]

/-- Status-list effect of init-template.py step 9 (lines 463-473): the
PROMPT.md update runs only when the file exists. -/
def init_step_prompt (fileExists : Bool) (st : List String) : List String :=
  if fileExists then st ++ ["Updated scripts/PROMPT.md"] else st

/-- Status-list effect of init-template.py step 10 (line 479). -/
def init_step_complete (st : List String) : List String :=
  st ++ ["Repository initialization completed successfully"]

/-- The status-list operations performed by `main` of
`src/scripts/init-template.py`, in program order. -/
def initStatusOps (pkg : String) (dirExists promptExists : Bool) :
    List (List String → List String) :=
  [init_step_gather,
   init_step_update "Updated pyproject.toml",
   init_step_pixi,
   rename_directory dirExists ("Renamed directory to src/" ++ pkg ++ "/"),
   init_step_update "Updated .github/ISSUE_TEMPLATE/bug_report.yml",
   init_step_update "Updated .github/ISSUE_TEMPLATE/feature_request.yml",
   init_step_update "Updated README.md",
   init_step_tbump,
   init_step_prompt promptExists,
   init_step_complete]

/-- Split a character list at every `'.'` (separators removed, empty parts
kept), the shape against which `\d+\.\d+\.\d+` is checked. -/
def splitDots : PyStr → List PyStr
  | [] => [[]]
  | c :: rest =>
    if c = '.' then [] :: splitDots rest
    else
      match splitDots rest with
      | [] => [[c]]
      | l :: ls => (c :: l) :: ls

/-- Python `\d` on the script's inputs; the inputs of interest are ASCII, so
decimal digits are the characters `'0'`-`'9'`. -/
def pyDigit (c : Char) : Bool := c.isDigit

/-- A nonempty run of decimal digits, `\d+`. -/
def digitRun (s : PyStr) : Bool := !s.isEmpty && s.all pyDigit

/-- The anchored body `\d+\.\d+\.\d+`: exactly three dot-separated nonempty
digit runs. -/
def versionCore (s : PyStr) : Bool :=
  match splitDots s with
  | [a, b, c] => digitRun a && digitRun b && digitRun c
  | _ => false

/-- Python `re.match(r"^\d+\.\d+\.\d+$", s)` as a total test, as used by
`get_release_version` in `src/scripts/release.py` (line 94).  Python's `$`
(without `re.MULTILINE`) matches at the end of the string or just before a
single newline that ends the string, so one trailing `'\n'` is tolerated. -/
def pyMatchVersion (s : PyStr) : Bool :=
  if s.getLast? = some '\n' then versionCore s.dropLast else versionCore s

/-- The prompt loop of `get_release_version` (`src/scripts/release.py` lines
102-117): consume scripted user inputs until `input(...) or default` passes
the pattern; an exhausted script models the user never supplying a valid
value (the real loop would block forever), hence `none`. -/
def grvLoop (default_version : PyStr) : List PyStr → Option PyStr
  | [] => none
  | inp :: rest =>
    let release_version := if inp = [] then default_version else inp
    if pyMatchVersion release_version then some release_version
    else grvLoop default_version rest

/-- Model of `get_release_version` in `src/scripts/release.py` (lines 84-117):
`env` is the `RELEASE_VERSION` environment variable, `inputs` the successive
raw strings typed by the user (`input()` never yields a string containing a
newline, but the environment variable may). -/
def get_release_version (env : Option PyStr) (inputs : List PyStr) :
    Option PyStr :=
  let default_version :=
    match env with
    | some v => if !v.isEmpty && pyMatchVersion v then v else []
    | none => []
  grvLoop default_version inputs

/-- Result of the `subprocess.run(["git", "remote", "get-url", "origin"], ...,
check=True)` call in `src/scripts/init-template.py` (lines 176-183): captured
stdout on success, `CalledProcessError` on a non-zero exit (because of
`check=True`), `FileNotFoundError` when the `git` executable is absent. -/
inductive GitRemoteResult
  | ok (stdout : PyStr)
  | calledProcessError
  | fileNotFoundError

/-- Python `re.match` against a pattern of the shape `LITERAL([^/]+)/`, as in
`init-template.py` lines 186 and 191, returning group 1: the input must start
with the literal `pat`, followed by at least one non-`'/'` character, followed
by `'/'`; the group is everything between the literal and that first `'/'`. -/
def matchOwner (pat : PyStr) (s : PyStr) : Option PyStr :=
  if pat.isPrefixOf s then
    let rest := s.drop pat.length
    let owner := rest.takeWhile (fun c => c != '/')
    if owner.length ≠ 0 ∧ owner.length < rest.length then some owner else none
  else none

/-- Model of `get_github_owner_from_remote` in `src/scripts/init-template.py`
(lines 168-198): both subprocess failures are caught and give `None`;
otherwise the stripped remote URL is matched first against the SSH form
`git@github.com:owner/...`, then against the HTTPS form
`https://github.com/owner/...`. -/
def get_github_owner_from_remote (git : GitRemoteResult) : Option PyStr :=
  match git with
  | .calledProcessError => none
  | .fileNotFoundError => none
  | .ok stdout =>
    let remote_url := pyStrip stdout
    match matchOwner (chars "git@github.com:") remote_url with
    | some owner => some owner
    | none => matchOwner (chars "https://github.com/") remote_url

/-- Python `str.replace(old, new)` when `old` is the empty string: `new` is
inserted before every character and at the end. -/
def pyReplaceEmpty (new : PyStr) : PyStr → PyStr
  | [] => new
  | c :: rest => new ++ c :: pyReplaceEmpty new rest

/-- Python `str.replace(old, new)` for nonempty `old` (head `o`, tail `os`):
scan left to right, replacing every non-overlapping occurrence. -/
def pyReplaceNE (o : Char) (os : PyStr) (new : PyStr) (s : PyStr) : PyStr :=
  match s with
  | [] => []
  | c :: rest =>
    if (o :: os).isPrefixOf (c :: rest) then
      new ++ pyReplaceNE o os new ((c :: rest).drop (os.length + 1))
    else
      c :: pyReplaceNE o os new rest
termination_by s.length
decreasing_by
  · simp only [List.length_drop, List.length_cons]
    omega
  · simp

/-- Python `str.split(sep)` for nonempty `sep` (head `o`, tail `os`): the
parts of `s` between consecutive non-overlapping occurrences of `sep`, scanned
left to right. -/
def pySplitNE (o : Char) (os : PyStr) (s : PyStr) : List PyStr :=
  match s with
  | [] => [[]]
  | c :: rest =>
    if (o :: os).isPrefixOf (c :: rest) then
      [] :: pySplitNE o os ((c :: rest).drop (os.length + 1))
    else
      match pySplitNE o os rest with
      | [] => [[c]]
      | l :: ls => (c :: l) :: ls
termination_by s.length
decreasing_by
  · simp only [List.length_drop, List.length_cons]
    omega
  · simp

/-- Join a list of parts with a separator: the inverse reading of a split.
`joinWith sep parts` interleaves `sep` between consecutive parts. -/
def joinWith (sep : PyStr) : List PyStr → PyStr
  | [] => []
  | [x] => x
  | x :: y :: rest => x ++ sep ++ joinWith sep (y :: rest)

/-- Python `str.replace(old, new)`: all occurrences, leftmost first,
non-overlapping (`content.replace(old, new)` in `init-template.py` line 283). -/
def pyReplace (s old new : PyStr) : PyStr :=
  match old with
  | [] => pyReplaceEmpty new s
  | o :: os => pyReplaceNE o os new s

/-- Model of `update_file` in `src/scripts/init-template.py` (lines 267-287):
the file's content is passed in and the rewritten content passed out; the
replacement mapping is applied in iteration order, each pass replacing every
occurrence; the description is appended to the status list. -/
def update_file (content : PyStr) (replacements : List (PyStr × PyStr))
    (description : String) (status : List String) : PyStr × List String :=
  (replacements.foldl (fun c p => pyReplace c p.1 p.2) content,
   status ++ [description])

/-- Modelled from the spec: "replaces exactly the first occurrence (not all
occurrences)" (§4.2 `edit_file`).  Replace the leftmost occurrence of `old`
in `s` by `new` and leave the remainder untouched; `s` is returned unchanged
when `old` never occurs. -/
def replaceFirst (old new : PyStr) : PyStr → PyStr
  | [] => []
  | c :: rest =>
    if old.isPrefixOf (c :: rest) then new ++ (c :: rest).drop old.length
    else c :: replaceFirst old new rest

/-- Modelled from the spec: the `edit_file` handler of the Tool Executor
(§4.2), whose implementation is not among the sources under `src/`.  The file
system is passed explicitly: `file` is the current content of `path` (`none`
when the file does not exist / cannot be opened).  Empty `old_str` creates or
overwrites the file with `new_str`; a missing `old_str` fails with a message
quoting the searched string and leaves the content unchanged; otherwise
exactly the first occurrence is replaced and success reported with the path. -/
def edit_file (path : PyStr) (file : Option PyStr) (old_str new_str : PyStr) :
    Option PyStr × PyStr :=
  if old_str = [] then
    (some new_str, chars "Successfully created file " ++ path)
  else
    match file with
    | none => (none, chars "Error: could not open file " ++ path)
    | some content =>
      if old_str <:+: content then
        (some (replaceFirst old_str new_str content),
         chars "Successfully edited file " ++ path)
      else
        (some content,
         chars "Error: old_str " ++ old_str ++ chars " not found in " ++ path)

/-- Modelled from the spec: what the environment reports about one shell
command run by the `bash` tool (§6 process boundary): exit code, stdout,
stderr. -/
structure ShellOutcome where
  exitCode : Int
  stdout : PyStr
  stderr : PyStr

/-- Modelled from the spec: `ToolInvocationResult` (§3) — always a string,
even on failure; failures are encoded as readable text, not a distinct error
type. -/
structure ToolInvocationResult where
  text : PyStr
deriving DecidableEq

/-- Modelled from the spec: the `bash` handler of the Tool Executor (§4.2):
"concatenates stdout then stderr into one string regardless of exit code; a
non-zero exit code is NOT treated as a tool-execution failure". -/
def bash_tool (outcome : ShellOutcome) : ToolInvocationResult :=
  ⟨outcome.stdout ++ outcome.stderr⟩

/-- Modelled from the spec: message roles (§3). -/
inductive Role
  | user
  | assistant
deriving DecidableEq

/-- Modelled from the spec: `ContentBlock` (§3), the tagged union of
`Text`, `ToolUse` and `ToolResult`; tool inputs are an opaque string-to-value
mapping, with values kept as strings. -/
inductive ContentBlock
  | text (value : String)
  | toolUse (id : String) (name : String) (input : List (String × String))
  | toolResult (tool_use_id : String) (content : String)
deriving DecidableEq

/-- Modelled from the spec: a conversation message (§3). -/
structure Message where
  role : Role
  content : List ContentBlock
deriving DecidableEq

/-- Modelled from the spec: the endpoint's stop signal (§6). -/
inductive StopSignal
  | endTurn
  | toolUseRequested
  | other
deriving DecidableEq

/-- Modelled from the spec: one model-endpoint response (§6). -/
structure ModelResponse where
  stop : StopSignal
  content : List ContentBlock
deriving DecidableEq

/-- The `ToolUse` blocks of a response as `(id, name, input)` triples, in the
order they appear (§4.3 step 4). -/
def toolCalls : List ContentBlock → List (String × String × List (String × String))
  | [] => []
  | .toolUse i n inp :: rest => (i, n, inp) :: toolCalls rest
  | .text _ :: rest => toolCalls rest
  | .toolResult _ _ :: rest => toolCalls rest

/-- The call identifiers of the `ToolUse` blocks, in order. -/
def toolCallIds (blocks : List ContentBlock) : List String :=
  (toolCalls blocks).map (fun c => c.1)

/-- The identifiers carried by the `ToolResult` blocks, in order. -/
def toolResultIds : List ContentBlock → List String
  | [] => []
  | .toolResult i _ :: rest => i :: toolResultIds rest
  | .text _ :: rest => toolResultIds rest
  | .toolUse _ _ _ :: rest => toolResultIds rest

/-- Concatenation, in order, of the `Text` block values (§4.3 step 3). -/
def concatTexts : List ContentBlock → String
  | [] => ""
  | .text v :: rest => v ++ concatTexts rest
  | .toolUse _ _ _ :: rest => concatTexts rest
  | .toolResult _ _ :: rest => concatTexts rest

/-- Number of `ToolResult` blocks among `blocks` carrying identifier `i`. -/
def countResults (blocks : List ContentBlock) (i : String) : Nat :=
  (toolResultIds blocks).count i

/-- Decidable check of the pairing invariant between a message and its
immediate successor: if the first is an assistant message with `ToolUse`
blocks, the successor is a user message with exactly one `ToolResult` per
`ToolUse` identifier and no `ToolResult` matching none of them. -/
def okPairB (m m2 : Message) : Bool :=
  match m.role with
  | .user => true
  | .assistant =>
    if toolCallIds m.content = [] then true
    else
      decide (m2.role = Role.user) &&
      (toolCallIds m.content).all (fun i => countResults m2.content i == 1) &&
      (toolResultIds m2.content).all (fun i => (toolCallIds m.content).contains i)

/-- A conversation-final message may not leave `ToolUse` blocks unanswered:
an assistant message with `ToolUse` blocks and no successor violates the
invariant. -/
def lastMsgOKB (m : Message) : Bool :=
  match m.role with
  | .user => true
  | .assistant => (toolCallIds m.content).isEmpty

/-- `okPairB` holds of every adjacent pair of the list. -/
def pairsOK : List Message → Bool
  | m :: m2 :: rest => okPairB m m2 && pairsOK (m2 :: rest)
  | _ => true

/-- Decidable statement of the conversation invariant of C2: every assistant
message's `ToolUse` blocks are answered, in the immediately following user
message, by exactly one matching `ToolResult` each and by nothing unmatched. -/
def convOKB (conv : List Message) : Bool :=
  pairsOK conv &&
    (match conv.getLast? with
     | none => true
     | some m => lastMsgOKB m)

/-- Result of one full run of the conversation loop: the final conversation,
the final world state, the final answer (`none` on transport failure), and
the number of model round-trips performed. -/
structure LoopResult (σ : Type) where
  conv : List Message
  finalState : σ
  answer : Option String
  rounds : Nat

/-- Modelled from the spec: execute the extracted tool calls in order (§4.3
step 4), threading the world state through the executor and collecting one
`ToolResult` block per call, carrying the same identifier. -/
def execCalls {σ : Type} (exec : σ → String → List (String × String) → σ × String)
    (st : σ) : List (String × String × List (String × String)) → σ × List ContentBlock
  | [] => (st, [])
  | c :: rest =>
    let r := exec st c.2.1 c.2.2
    let tail := execCalls exec r.1 rest
    (tail.1, ContentBlock.toolResult c.1 r.2 :: tail.2)

/-- Modelled from the spec: the conversation loop (§4.3).  The opaque model
endpoint is a script of responses consumed one per round-trip; exhausting it
models a transport failure (fatal for the invocation, no answer).  Per
iteration: append the response as an assistant message; on an end-turn stop
signal return the concatenated text; otherwise execute the `ToolUse` blocks
in order and append one user message holding all results, or — defensively,
when tool use was claimed but none is extractable — terminate with whatever
text is available. -/
def runLoop {σ : Type} (exec : σ → String → List (String × String) → σ × String) :
    List ModelResponse → List Message → σ → LoopResult σ
  | [], conv, st => ⟨conv, st, none, 0⟩
  | r :: rest, conv, st =>
    let conv1 := conv ++ [⟨Role.assistant, r.content⟩]
    if r.stop = StopSignal.endTurn then
      ⟨conv1, st, some (concatTexts r.content), 1⟩
    else
      match toolCalls r.content with
      | [] => ⟨conv1, st, some (concatTexts r.content), 1⟩
      | c :: cs =>
        let er := execCalls exec st (c :: cs)
        let res := runLoop exec rest (conv1 ++ [⟨Role.user, er.2⟩]) er.1
        ⟨res.conv, res.finalState, res.answer, res.rounds + 1⟩

/-- Modelled from the spec: the caller-facing entry point
`runAgent(userMessage)` (§6), seeding the conversation with a single user
message holding the request. -/
def runAgent {σ : Type} (exec : σ → String → List (String × String) → σ × String)
    (responses : List ModelResponse) (userMessage : String) (st : σ) :
    LoopResult σ :=
  runLoop exec responses [⟨Role.user, [ContentBlock.text userMessage]⟩] st

/-- A sample stateless tool executor used to exercise the loop on concrete
scripts: it leaves the state unchanged and answers every call with "ok". -/
def sampleExec : Nat → String → List (String × String) → Nat × String :=
  fun st _ _ => (st, "ok")

lemma runSteps_append_of_error {σ : Type} (steps1 steps2 : List (σ → Except PyExn σ))
    (s : σ) (e : PyExn) (h : runSteps steps1 s = .error e) :
    runSteps (steps1 ++ steps2) s = .error e := by
  induction steps1 generalizing s with
  | nil => simp [runSteps] at h
  | cons step rest ih =>
    rw [List.cons_append]
    unfold runSteps at h ⊢
    cases hs : step s with
    | ok s2 =>
      simp only [hs] at h ⊢
      exact ih _ h
    | error e2 =>
      simp only [hs] at h ⊢
      exact h

/-- C1: the scripts have no failure recovery beyond print-and-exit.  A
subprocess exiting non-zero makes `run_command` print the error line and
terminate the process with that exit code, never returning normally; a step
of `init-template.py`'s `main` that raises aborts all later steps (appending
more steps cannot change the raised outcome), and `main` then only prints a
message and terminates — re-raising for a generic exception, ending the
script for a `KeyboardInterrupt` — never completing normally. -/
theorem C1_failures_print_and_exit :
    (∀ (command : List String) (returncode : Int) (stdout : String) (cap : Bool),
      returncode ≠ 0 →
        (run_command command returncode stdout cap).outcome = .exited returncode ∧
        (run_command command returncode stdout cap).printed =
          [colored_yellow ("Running command: " ++ String.intercalate " " command),
           colored_yellow ("Error running command: " ++ String.intercalate " " command)] ∧
        ∀ captured, (run_command command returncode stdout cap).outcome ≠ .normal captured) ∧
    (∀ (σ : Type) (steps1 steps2 : List (σ → Except PyExn σ)) (s : σ) (e : PyExn),
      runSteps steps1 s = .error e → runSteps (steps1 ++ steps2) s = .error e) ∧
    (∀ (σ : Type) (steps : List (σ → Except PyExn σ)) (s : σ) (m : String),
      runSteps steps s = .error (.error m) →
        init_main steps s =
          .errored (colored_yellow ("\n\nError during initialization: " ++ m)) m ∧
        init_main steps s ≠ .completed) ∧
    (∀ (σ : Type) (steps : List (σ → Except PyExn σ)) (s : σ),
      runSteps steps s = .error .keyboardInterrupt →
        init_main steps s = .interrupted (colored_yellow "\n\nInitialization interrupted.") ∧
        init_main steps s ≠ .completed) := by
  refine ⟨?_, ?_, ?_, ?_⟩
  · intro command returncode stdout cap h
    refine ⟨?_, ?_, ?_⟩ <;> simp [run_command, h]
  · intro σ steps1 steps2 s e h
    exact runSteps_append_of_error steps1 steps2 s e h
  · intro σ steps s m h
    constructor <;> simp [init_main, h]
  · intro σ steps s h
    constructor <;> simp [init_main, h]

/-- Witness for C1 at concrete inputs: a failing `git push` and a failing
second step of a three-step script body. -/
theorem C1_failures_print_and_exit_witness :
    ((run_command ["git", "push"] 1 "" false).outcome = .exited 1 ∧
      (run_command ["git", "push"] 1 "" false).printed =
        [colored_yellow ("Running command: " ++ String.intercalate " " ["git", "push"]),
         colored_yellow ("Error running command: " ++ String.intercalate " " ["git", "push"])] ∧
      ∀ captured, (run_command ["git", "push"] 1 "" false).outcome ≠ .normal captured) ∧
    runSteps ([fun n : Nat => Except.ok (n + 1), fun _ => Except.error (.error "boom")] ++
        [fun n : Nat => Except.ok (n + 7)]) 0 = .error (.error "boom") ∧
    init_main [fun n : Nat => Except.ok (n + 1), fun _ => Except.error (.error "boom")] 0 =
      .errored (colored_yellow ("\n\nError during initialization: " ++ "boom")) "boom" ∧
    init_main [fun _ : Nat => Except.error .keyboardInterrupt] 0 =
      .interrupted (colored_yellow "\n\nInitialization interrupted.") :=
  ⟨C1_failures_print_and_exit.1 ["git", "push"] 1 "" false (by decide),
   C1_failures_print_and_exit.2.1 Nat
     [fun n : Nat => Except.ok (n + 1), fun _ => Except.error (.error "boom")]
     [fun n : Nat => Except.ok (n + 7)] 0 (.error "boom") rfl,
   (C1_failures_print_and_exit.2.2.1 Nat
     [fun n : Nat => Except.ok (n + 1), fun _ => Except.error (.error "boom")]
     0 "boom" rfl).1,
   (C1_failures_print_and_exit.2.2.2 Nat
     [fun _ : Nat => Except.error .keyboardInterrupt] 0 rfl).1⟩

/-- C5: the `bash` tool returns an ordinary text result for every shell
command: the result is the same success-shaped value whatever the exit code
(it depends only on the produced output), it contains the produced stdout and
stderr, and — by the executor's total return type `ToolInvocationResult` —
no failure is raised or reported. -/
theorem C5_bash_nonzero_exit_is_ordinary_text (exitCode : Int) (out err : PyStr) :
    bash_tool ⟨exitCode, out, err⟩ = bash_tool ⟨0, out, err⟩ ∧
    out <+: (bash_tool ⟨exitCode, out, err⟩).text ∧
    err <:+ (bash_tool ⟨exitCode, out, err⟩).text ∧
    (bash_tool ⟨exitCode, out, err⟩).text = out ++ err :=
  ⟨rfl, List.prefix_append out err, List.suffix_append out err, rfl⟩

lemma status_append_one_ok (st : List String) (x : String) :
    st <+: st ++ [x] ∧ (st ++ [x]).length ≤ st.length + 1 :=
  ⟨⟨[x], rfl⟩, by simp⟩

lemma status_id_ok (st : List String) :
    st <+: st ∧ st.length ≤ st.length + 1 :=
  ⟨⟨[], by simp⟩, by omega⟩

/-- C7 counterexample: the lint step of release.py (step 8, lines 291-294) is
one of the script's steps, and when it completes it appends no entry to the
status list — refuting "each completed step appends exactly one entry". -/
theorem C7_counterexample_lint_appends_nothing :
    release_step_lint ∈ releaseStatusOps "1.2.3" ∧
    release_step_lint ([] : List String) = [] ∧
    ¬ (release_step_lint ([] : List String)).length = ([] : List String).length + 1 := by
  refine ⟨?_, rfl, by decide⟩
  simp [releaseStatusOps]

/-- C7 (amended): progress is recorded in a process-wide mutable status list
that is append-only — every status-affecting step of either script extends
the list by at most one entry, preserving the existing entries and their
order (most steps append exactly one, but release.py's lockfile and lint
steps, and the skip branches of the directory rename and the PROMPT.md
update in init-template.py, append none) — and the atexit-registered
`print_summary` prints a heading plus exactly one summary line per appended
entry, in insertion order. -/
theorem C7_amended_append_only_status_log :
    (∀ (release_version pkg : String) (dirExists promptExists : Bool)
        (op : List String → List String),
      (op ∈ releaseStatusOps release_version ∨ op ∈ initStatusOps pkg dirExists promptExists) →
      ∀ st : List String, st <+: op st ∧ (op st).length ≤ st.length + 1) ∧
    (∀ st : List String, (print_summary st).length = st.length + 1) ∧
    (∀ (st : List String) (i : Nat) (s : String), st[i]? = some s →
      (print_summary st)[i + 1]? = some (colored_yellow ("- " ++ s))) ∧
    (∀ st : List String,
      (print_summary st)[0]? = some (colored_yellow "\nSummary of completed steps:")) := by
  refine ⟨?_, ?_, ?_, ?_⟩
  · intro release_version pkg dirExists promptExists op hop st
    rcases hop with h | h
    · simp only [releaseStatusOps, List.mem_cons, List.not_mem_nil, or_false] at h
      rcases h with rfl | rfl | rfl | rfl | rfl | rfl | rfl | rfl | rfl | rfl | rfl | rfl <;>
        first
          | exact status_append_one_ok st _
          | exact status_id_ok st
    · simp only [initStatusOps, List.mem_cons, List.not_mem_nil, or_false] at h
      rcases h with rfl | rfl | rfl | rfl | rfl | rfl | rfl | rfl | rfl | rfl <;>
        first
          | exact status_append_one_ok st _
          | exact status_id_ok st
          | (cases dirExists <;>
              first
                | exact status_id_ok st
                | exact status_append_one_ok st _)
          | (cases promptExists <;>
              first
                | exact status_id_ok st
                | exact status_append_one_ok st _)
  · intro st
    simp [print_summary]
  · intro st i s h
    simp [print_summary, h]
  · intro st
    simp [print_summary]

/-- Witness for C7's amended statement at concrete inputs: the first release
step on the singleton log, and the summary line printed for the entry at
index 0. -/
theorem C7_amended_append_only_status_log_witness :
    (["a"] <+: release_step_start ["a"] ∧
      (release_step_start ["a"]).length ≤ (["a"] : List String).length + 1) ∧
    (print_summary ["x"])[0 + 1]? = some (colored_yellow ("- " ++ "x")) :=
  ⟨C7_amended_append_only_status_log.1 "1.2.3" "pkg" true true release_step_start
      (Or.inl (by simp [releaseStatusOps])) ["a"],
   C7_amended_append_only_status_log.2.2.1 ["x"] 0 "x" rfl⟩

lemma grvLoop_matches (d : PyStr) (inputs : List PyStr) (r : PyStr)
    (h : grvLoop d inputs = some r) : pyMatchVersion r = true := by
  induction inputs with
  | nil => simp [grvLoop] at h
  | cons inp rest ih =>
    simp only [grvLoop] at h
    by_cases hm : pyMatchVersion (if inp = [] then d else inp) = true
    · rw [if_pos hm] at h
      cases h
      exact hm
    · rw [if_neg hm] at h
      exact ih h

/-- C8 counterexample: with the environment variable `RELEASE_VERSION` set to
`"1.2.3\n"` and the user accepting the default by pressing Enter (empty
input), `get_release_version` returns `"1.2.3\n"` — Python's `$` matches
before the trailing newline — and that string is not of the form `X.Y.Z`. -/
theorem C8_counterexample_env_trailing_newline :
    get_release_version (some (chars "1.2.3\n")) [[]] = some (chars "1.2.3\n") ∧
    versionCore (chars "1.2.3\n") = false := by
  constructor <;> decide

/-- C8 (amended): every string returned by `get_release_version` passes the
script's pattern under Python semantics: it is `X.Y.Z` with `X`, `Y`, `Z`
decimal digit runs, optionally followed by exactly one trailing newline (a
shape only reachable through the `RELEASE_VERSION` environment default, since
`input()` never returns a newline); any other input is never returned. -/
theorem C8_amended_version_shape (env : Option PyStr) (inputs : List PyStr)
    (r : PyStr) (h : get_release_version env inputs = some r) :
    pyMatchVersion r = true ∧
    (r.getLast? = some '\n' → versionCore r.dropLast = true) ∧
    (r.getLast? ≠ some '\n' → versionCore r = true) := by
  unfold get_release_version at h
  have hm := grvLoop_matches _ inputs r h
  refine ⟨hm, ?_, ?_⟩ <;> intro hl <;> unfold pyMatchVersion at hm
  · rwa [if_pos hl] at hm
  · rwa [if_neg hl] at hm

/-- Witness for C8's amended statement at the concrete run of the
counterexample environment. -/
theorem C8_amended_version_shape_witness :
    pyMatchVersion (chars "1.2.3\n") = true ∧
    ((chars "1.2.3\n").getLast? = some '\n' → versionCore (chars "1.2.3\n").dropLast = true) ∧
    ((chars "1.2.3\n").getLast? ≠ some '\n' → versionCore (chars "1.2.3\n") = true) :=
  C8_amended_version_shape (some (chars "1.2.3\n")) [[]] (chars "1.2.3\n") (by decide)

lemma mem_takeWhile_true (p : Char → Bool) (l : List Char) (x : Char)
    (hx : x ∈ l.takeWhile p) : p x = true := by
  induction l with
  | nil => simp [List.takeWhile] at hx
  | cons a t ih =>
    rw [List.takeWhile_cons] at hx
    by_cases hp : p a = true
    · rw [if_pos hp] at hx
      rcases List.mem_cons.mp hx with rfl | hx2
      · exact hp
      · exact ih hx2
    · rw [if_neg hp] at hx
      simp at hx

lemma dropWhile_head_false (p : Char → Bool) (l : List Char) (c : Char) (cs : List Char)
    (h : l.dropWhile p = c :: cs) : p c = false := by
  induction l with
  | nil => simp [List.dropWhile] at h
  | cons a t ih =>
    rw [List.dropWhile_cons] at h
    by_cases hp : p a = true
    · rw [if_pos hp] at h
      exact ih h
    · rw [if_neg hp] at h
      injection h with h1 h2
      subst h1
      rw [Bool.not_eq_true] at hp
      exact hp

lemma takeWhile_all_append (p : Char → Bool) (o : List Char) (c : Char) (q : List Char)
    (ho : ∀ x ∈ o, p x = true) (hc : p c = false) :
    (o ++ c :: q).takeWhile p = o := by
  induction o with
  | nil => simp [List.takeWhile_cons, hc]
  | cons a t ih =>
    have ha : p a = true := ho a (List.mem_cons_self a t)
    rw [List.cons_append, List.takeWhile_cons, if_pos ha,
      ih (fun x hx => ho x (List.mem_cons_of_mem a hx))]

lemma matchOwner_eq_some_iff (pat s o : PyStr) :
    matchOwner pat s = some o ↔
      (o ≠ [] ∧ (∀ c ∈ o, c ≠ '/') ∧ (pat ++ (o ++ ['/'])) <+: s) := by
  constructor
  · intro h
    simp only [matchOwner] at h
    by_cases hpre : pat.isPrefixOf s = true
    · rw [if_pos hpre] at h
      obtain ⟨t, ht⟩ := List.isPrefixOf_iff_prefix.mp hpre
      have hdrop : s.drop pat.length = t := by rw [← ht, List.drop_left]
      rw [hdrop] at h
      by_cases hg : (t.takeWhile (fun c => c != '/')).length ≠ 0 ∧
          (t.takeWhile (fun c => c != '/')).length < t.length
      · rw [if_pos hg] at h
        injection h with h2
        obtain ⟨hne, hlt⟩ := hg
        have hsplit := List.takeWhile_append_dropWhile (fun c => c != '/') t
        cases hd : t.dropWhile (fun c => c != '/') with
        | nil =>
          rw [hd, List.append_nil] at hsplit
          rw [hsplit] at hlt
          exact absurd hlt (lt_irrefl _)
        | cons c cs =>
          have hc : (fun c => c != '/') c = false := dropWhile_head_false _ t c cs hd
          have hc2 : c = '/' := by simpa using hc
          refine ⟨?_, ?_, ?_⟩
          · intro h0
            rw [h2, h0] at hne
            simp at hne
          · intro x hx
            rw [← h2] at hx
            have := mem_takeWhile_true _ t x hx
            simpa using this
          · refine ⟨cs, ?_⟩
            rw [← ht, ← hsplit, hd, hc2, h2]
            simp
      · rw [if_neg hg] at h
        exact absurd h (by simp)
    · rw [if_neg hpre] at h
      exact absurd h (by simp)
  · rintro ⟨hne, hslash, q, hq⟩
    have hs : s = pat ++ (o ++ '/' :: q) := by
      rw [← hq]
      simp
    have hpre : pat.isPrefixOf s = true := by
      apply List.isPrefixOf_iff_prefix.mpr
      exact ⟨o ++ '/' :: q, hs.symm⟩
    have hdrop : s.drop pat.length = o ++ '/' :: q := by
      rw [hs, List.drop_left]
    have htake : (o ++ '/' :: q).takeWhile (fun c => c != '/') = o :=
      takeWhile_all_append _ o '/' q (fun x hx => by simpa using hslash x hx) (by simp)
    simp only [matchOwner]
    rw [if_pos hpre, hdrop, htake]
    rw [if_pos ⟨fun h0 => hne (List.length_eq_zero.mp h0), by simp⟩]

/-- C9: `get_github_owner_from_remote` is total over failing git invocations —
a non-zero git exit (`CalledProcessError` under `check=True`) or an absent
git executable (`FileNotFoundError`) yields `None` rather than an exception;
a stripped remote URL matching neither the github.com SSH form nor the
github.com HTTPS form also yields `None`; and a string is returned only when
the URL matches one of those two forms, in which case it is the captured
owner segment: the nonempty slash-free run between the literal and the next
`'/'`. -/
theorem C9_github_owner_total_and_captures :
    (get_github_owner_from_remote .calledProcessError = none ∧
     get_github_owner_from_remote .fileNotFoundError = none) ∧
    (∀ stdout : PyStr,
      (¬ ∃ o : PyStr, o ≠ [] ∧ (∀ c ∈ o, c ≠ '/') ∧
          (chars "git@github.com:" ++ (o ++ ['/'])) <+: pyStrip stdout) →
      (¬ ∃ o : PyStr, o ≠ [] ∧ (∀ c ∈ o, c ≠ '/') ∧
          (chars "https://github.com/" ++ (o ++ ['/'])) <+: pyStrip stdout) →
      get_github_owner_from_remote (.ok stdout) = none) ∧
    (∀ (stdout o : PyStr), get_github_owner_from_remote (.ok stdout) = some o →
      o ≠ [] ∧ (∀ c ∈ o, c ≠ '/') ∧
      ((chars "git@github.com:" ++ (o ++ ['/'])) <+: pyStrip stdout ∨
       (chars "https://github.com/" ++ (o ++ ['/'])) <+: pyStrip stdout)) := by
  refine ⟨⟨rfl, rfl⟩, ?_, ?_⟩
  · intro stdout h1 h2
    simp only [get_github_owner_from_remote]
    cases hm1 : matchOwner (chars "git@github.com:") (pyStrip stdout) with
    | some ow =>
      exact absurd ⟨ow, (matchOwner_eq_some_iff _ _ ow).mp hm1⟩ h1
    | none =>
      cases hm2 : matchOwner (chars "https://github.com/") (pyStrip stdout) with
      | some ow =>
        exact absurd ⟨ow, (matchOwner_eq_some_iff _ _ ow).mp hm2⟩ h2
      | none => simp [hm1, hm2]
  · intro stdout o h
    simp only [get_github_owner_from_remote] at h
    cases hm1 : matchOwner (chars "git@github.com:") (pyStrip stdout) with
    | some ow =>
      rw [hm1] at h
      simp only [Option.some.injEq] at h
      subst h
      obtain ⟨ha, hb, hc⟩ := (matchOwner_eq_some_iff _ _ ow).mp hm1
      exact ⟨ha, hb, Or.inl hc⟩
    | none =>
      rw [hm1] at h
      obtain ⟨ha, hb, hc⟩ := (matchOwner_eq_some_iff _ _ o).mp h
      exact ⟨ha, hb, Or.inr hc⟩

/-- Witness for C9 at concrete inputs: a failing git call, a non-GitHub
remote URL, and an SSH remote URL with a trailing newline from the shell. -/
theorem C9_github_owner_total_and_captures_witness :
    get_github_owner_from_remote .calledProcessError = none ∧
    get_github_owner_from_remote (.ok (chars "upstream-not-github")) = none ∧
    (chars "alice" ≠ [] ∧ (∀ c ∈ chars "alice", c ≠ '/') ∧
      ((chars "git@github.com:" ++ (chars "alice" ++ ['/'])) <+:
          pyStrip (chars "git@github.com:alice/repo.git\n") ∨
       (chars "https://github.com/" ++ (chars "alice" ++ ['/'])) <+:
          pyStrip (chars "git@github.com:alice/repo.git\n"))) := by
  refine ⟨C9_github_owner_total_and_captures.1.1, ?_,
    C9_github_owner_total_and_captures.2.2 (chars "git@github.com:alice/repo.git\n")
      (chars "alice") (by decide)⟩
  apply C9_github_owner_total_and_captures.2.1 (chars "upstream-not-github")
  · rintro ⟨o, h1, h2, h3⟩
    have hsome := (matchOwner_eq_some_iff (chars "git@github.com:")
      (pyStrip (chars "upstream-not-github")) o).mpr ⟨h1, h2, h3⟩
    have hnone : matchOwner (chars "git@github.com:")
        (pyStrip (chars "upstream-not-github")) = none := by decide
    rw [hnone] at hsome
    exact Option.noConfusion hsome
  · rintro ⟨o, h1, h2, h3⟩
    have hsome := (matchOwner_eq_some_iff (chars "https://github.com/")
      (pyStrip (chars "upstream-not-github")) o).mpr ⟨h1, h2, h3⟩
    have hnone : matchOwner (chars "https://github.com/")
        (pyStrip (chars "upstream-not-github")) = none := by decide
    rw [hnone] at hsome
    exact Option.noConfusion hsome

lemma joinWith_cons_of_ne_nil (sep : PyStr) (a : PyStr) (l : List PyStr) (h : l ≠ []) :
    joinWith sep (a :: l) = a ++ sep ++ joinWith sep l := by
  cases l with
  | nil => exact absurd rfl h
  | cons y ys => rfl

lemma joinWith_head_cons (sep : PyStr) (c : Char) (l : PyStr) (ls : List PyStr) :
    joinWith sep ((c :: l) :: ls) = c :: joinWith sep (l :: ls) := by
  cases ls with
  | nil => rfl
  | cons y ys => simp [joinWith]

lemma pySplitNE_ne_nil (o : Char) (os s : PyStr) : pySplitNE o os s ≠ [] := by
  unfold pySplitNE
  split
  · simp
  · split
    · simp
    · split <;> simp

lemma pyReplaceNE_eq_joinWith (o : Char) (os new : PyStr) :
    ∀ (n : Nat) (s : PyStr), s.length ≤ n →
      pyReplaceNE o os new s = joinWith new (pySplitNE o os s) := by
  intro n
  induction n with
  | zero =>
    intro s hs
    have h0 : s = [] := List.length_eq_zero.mp (Nat.le_zero.mp hs)
    subst h0
    unfold pyReplaceNE pySplitNE
    rfl
  | succ n ih =>
    intro s hs
    cases s with
    | nil =>
      unfold pyReplaceNE pySplitNE
      rfl
    | cons c rest =>
      unfold pyReplaceNE pySplitNE
      by_cases hp : (o :: os).isPrefixOf (c :: rest) = true
      · rw [if_pos hp, if_pos hp]
        have hlen : ((c :: rest).drop (os.length + 1)).length ≤ n := by
          simp only [List.length_drop, List.length_cons]
          simp only [List.length_cons] at hs
          omega
        rw [ih _ hlen, joinWith_cons_of_ne_nil new [] _ (pySplitNE_ne_nil o os _)]
        simp
      · rw [if_neg hp, if_neg hp]
        have hlen : rest.length ≤ n := by
          simp only [List.length_cons] at hs
          omega
        rw [ih rest hlen]
        cases hsp : pySplitNE o os rest with
        | nil => exact absurd hsp (pySplitNE_ne_nil o os rest)
        | cons l ls =>
          exact (joinWith_head_cons new c l ls).symm

/-- C10: `update_file` rewrites the content by applying the replacement
mapping in iteration order (a left fold), where each pass is Python's
`str.replace`, which replaces every non-overlapping occurrence — not only
the first: for a nonempty `old` the result equals the parts of the content
split at every occurrence of `old`, rejoined with `new` — and it appends
exactly one entry, the given description, to the end of the status list. -/
theorem C10_update_file_replaces_every_occurrence :
    (∀ (content : PyStr) (replacements : List (PyStr × PyStr)) (description : String)
        (status : List String),
      update_file content replacements description status =
        (replacements.foldl (fun c p => pyReplace c p.1 p.2) content,
         status ++ [description]) ∧
      (update_file content replacements description status).2.length = status.length + 1 ∧
      status <+: (update_file content replacements description status).2) ∧
    (∀ (s : PyStr) (o : Char) (os new : PyStr),
      pyReplace s (o :: os) new = joinWith new (pySplitNE o os s)) ∧
    (∀ (s : PyStr) (o : Char) (os : PyStr), pySplitNE o os s ≠ []) := by
  refine ⟨fun content replacements description status =>
      ⟨rfl, by simp [update_file], ⟨[description], rfl⟩⟩, ?_, ?_⟩
  · intro s o os new
    exact pyReplaceNE_eq_joinWith o os new s.length s le_rfl
  · exact fun s o os => pySplitNE_ne_nil o os s

lemma replaceFirst_at_first (old new b : PyStr) (hne : old ≠ []) :
    ∀ a : PyStr, (¬ old <:+: (a ++ old).take (a.length + old.length - 1)) →
      replaceFirst old new (a ++ (old ++ b)) = a ++ (new ++ b) := by
  intro a
  induction a with
  | nil =>
    intro hfirst
    cases old with
    | nil => exact absurd rfl hne
    | cons o os =>
      show replaceFirst (o :: os) new (o :: (os ++ b)) = new ++ b
      unfold replaceFirst
      have hp : (o :: os).isPrefixOf (o :: (os ++ b)) = true :=
        List.isPrefixOf_iff_prefix.mpr ⟨b, by simp⟩
      rw [if_pos hp]
      congr 1
      have hsb : o :: (os ++ b) = (o :: os) ++ b := by simp
      rw [hsb, List.drop_left]
  | cons x a' ih =>
    intro hfirst
    have hol : 1 ≤ old.length := List.length_pos.mpr hne
    simp only [List.cons_append]
    unfold replaceFirst
    have hnp : ¬ old.isPrefixOf (x :: (a' ++ (old ++ b))) = true := by
      intro hp
      apply hfirst
      have hps : old <+: (x :: (a' ++ (old ++ b))) := List.isPrefixOf_iff_prefix.mp hp
      have h1 : ((x :: a') ++ old).take ((x :: a').length + old.length - 1) <+:
          ((x :: a') ++ old) := List.take_prefix _ _
      have h2 : ((x :: a') ++ old) <+: (x :: (a' ++ (old ++ b))) := ⟨b, by simp⟩
      have h3 := h1.trans h2
      have hlen : old.length ≤
          (((x :: a') ++ old).take ((x :: a').length + old.length - 1)).length := by
        simp only [List.length_take, List.length_append, List.length_cons]
        omega
      exact (List.prefix_of_prefix_length_le hps h3 hlen).isInfix
    rw [if_neg hnp]
    have hf2 : ¬ old <:+: (a' ++ old).take (a'.length + old.length - 1) := by
      intro hin
      apply hfirst
      have hstep : ((x :: a') ++ old).take ((x :: a').length + old.length - 1) =
          x :: (a' ++ old).take (a'.length + old.length - 1) := by
        simp only [List.cons_append, List.length_cons]
        rw [show a'.length + 1 + old.length - 1 = (a'.length + old.length - 1) + 1 by omega]
        exact List.take_succ_cons
      rw [hstep]
      exact List.infix_cons hin
    rw [ih hf2]

/-- C3: when `old_str` is nonempty and occurs at least twice in the file —
the content decomposes as `a ++ old ++ b` with no occurrence starting before
`a.length` and another occurrence inside `b` — `edit_file` replaces exactly
the first occurrence: the result is `a ++ new ++ b`, so the suffix `b`
holding every later occurrence is unchanged (in particular `old_str` still
occurs in the result), and success is reported with the path. -/
theorem C3_edit_file_replaces_only_first (path a b old new : PyStr)
    (hne : old ≠ [])
    (hfirst : ¬ old <:+: (a ++ old).take (a.length + old.length - 1))
    (hagain : old <:+: b) :
    edit_file path (some (a ++ (old ++ b))) old new =
      (some (a ++ (new ++ b)), chars "Successfully edited file " ++ path) ∧
    old <:+: (a ++ (new ++ b)) := by
  have hinf : old <:+: (a ++ (old ++ b)) := ⟨a, b, by simp⟩
  constructor
  · unfold edit_file
    rw [if_neg hne]
    dsimp only
    rw [if_pos hinf, replaceFirst_at_first old new b hne a hfirst]
  · obtain ⟨p, q, hb⟩ := hagain
    exact ⟨a ++ new ++ p, q, by rw [← hb]; simp⟩

/-- Witness for C3 at a concrete file: content `xabzaby`, `old_str` `ab`
(occurring at indices 1 and 4), `new_str` `Q`. -/
theorem C3_edit_file_replaces_only_first_witness :
    edit_file (chars "f.txt") (some (chars "x" ++ (chars "ab" ++ chars "zaby")))
        (chars "ab") (chars "Q") =
      (some (chars "x" ++ (chars "Q" ++ chars "zaby")),
       chars "Successfully edited file " ++ chars "f.txt") ∧
    chars "ab" <:+: (chars "x" ++ (chars "Q" ++ chars "zaby")) :=
  C3_edit_file_replaces_only_first (chars "f.txt") (chars "x") (chars "zaby")
    (chars "ab") (chars "Q") (by decide) (by decide) (by decide)

/-- C4: when the file exists and the nonempty `old_str` does not occur in its
content, `edit_file` leaves the content exactly as it was and returns a
failure string that contains the literal searched string. -/
theorem C4_edit_file_not_found_leaves_file (path content old new : PyStr)
    (hne : old ≠ []) (hmiss : ¬ old <:+: content) :
    (edit_file path (some content) old new).1 = some content ∧
    old <:+: (edit_file path (some content) old new).2 := by
  constructor
  · unfold edit_file
    rw [if_neg hne]
    dsimp only
    rw [if_neg hmiss]
  · unfold edit_file
    rw [if_neg hne]
    dsimp only
    rw [if_neg hmiss]
    exact ⟨chars "Error: old_str ", chars " not found in " ++ path, by simp⟩

/-- Witness for C4 at a concrete file: content `hello`, `old_str` `xyz`. -/
theorem C4_edit_file_not_found_leaves_file_witness :
    (edit_file (chars "f.txt") (some (chars "hello")) (chars "xyz") (chars "Q")).1 =
      some (chars "hello") ∧
    chars "xyz" <:+:
      (edit_file (chars "f.txt") (some (chars "hello")) (chars "xyz") (chars "Q")).2 :=
  C4_edit_file_not_found_leaves_file (chars "f.txt") (chars "hello") (chars "xyz")
    (chars "Q") (by decide) (by decide)

lemma pairsOK_append_one (l : List Message) (a : Message) :
    pairsOK (l ++ [a]) =
      (pairsOK l &&
        (match l.getLast? with
         | none => true
         | some m => okPairB m a)) := by
  induction l with
  | nil => simp [pairsOK]
  | cons m rest ih =>
    cases rest with
    | nil => simp [pairsOK]
    | cons m2 rest2 =>
      simp only [List.cons_append] at ih ⊢
      show (okPairB m m2 && pairsOK (m2 :: (rest2 ++ [a]))) = _
      rw [ih, List.getLast?_cons_cons, ← Bool.and_assoc]
      rfl

lemma okPairB_of_user (blocks : List ContentBlock) (a : Message) :
    okPairB ⟨Role.user, blocks⟩ a = true := rfl

lemma lastMsgOKB_assistant_of_no_calls (content : List ContentBlock)
    (h : toolCalls content = []) :
    lastMsgOKB ⟨Role.assistant, content⟩ = true := by
  simp [lastMsgOKB, toolCallIds, h]

lemma convOKB_snoc (conv : List Message) (a : Message)
    (hp : pairsOK conv = true)
    (hl : ∀ m, conv.getLast? = some m → m.role = Role.user)
    (hla : lastMsgOKB a = true) :
    convOKB (conv ++ [a]) = true := by
  unfold convOKB
  rw [pairsOK_append_one, List.getLast?_concat, hp]
  dsimp only
  rw [hla]
  cases hg : conv.getLast? with
  | none => rfl
  | some m =>
    have hm := hl m hg
    have hok : okPairB m a = true := by
      unfold okPairB
      rw [hm]
    dsimp only
    rw [hok]
    rfl

lemma toolResultIds_execCalls {σ : Type}
    (exec : σ → String → List (String × String) → σ × String) :
    ∀ (calls : List (String × String × List (String × String))) (st : σ),
      toolResultIds (execCalls exec st calls).2 = calls.map (fun c => c.1) := by
  intro calls
  induction calls with
  | nil => intro st; rfl
  | cons c cs ih =>
    intro st
    simp only [execCalls, toolResultIds, List.map_cons]
    rw [ih]

lemma okPairB_exec {σ : Type} (exec : σ → String → List (String × String) → σ × String)
    (content : List ContentBlock) (st : σ)
    (hnodup : (toolCallIds content).Nodup) :
    okPairB ⟨Role.assistant, content⟩
      ⟨Role.user, (execCalls exec st (toolCalls content)).2⟩ = true := by
  unfold okPairB
  dsimp only
  by_cases h0 : toolCallIds content = []
  · rw [if_pos h0]
  · rw [if_neg h0]
    have hids : toolResultIds (execCalls exec st (toolCalls content)).2 =
        toolCallIds content :=
      toolResultIds_execCalls exec (toolCalls content) st
    simp only [Bool.and_eq_true, List.all_eq_true]
    refine ⟨⟨by simp, ?_⟩, ?_⟩
    · intro i hi
      unfold countResults
      rw [hids, List.count_eq_one_of_mem hnodup hi]
      rfl
    · intro i hi
      rw [hids] at hi
      exact List.elem_iff.mpr hi

lemma runLoop_conv_invariant {σ : Type}
    (exec : σ → String → List (String × String) → σ × String) :
    ∀ (responses : List ModelResponse),
      (∀ r ∈ responses, (r.stop = StopSignal.endTurn → toolCalls r.content = []) ∧
        (toolCallIds r.content).Nodup) →
      ∀ (conv : List Message) (st : σ),
        pairsOK conv = true →
        (∀ m, conv.getLast? = some m → m.role = Role.user) →
        convOKB (runLoop exec responses conv st).conv = true := by
  intro responses
  induction responses with
  | nil =>
    intro hr conv st hp hl
    unfold runLoop convOKB
    dsimp only
    rw [hp]
    cases hg : conv.getLast? with
    | none => rfl
    | some m =>
      have hm := hl m hg
      have hlast : lastMsgOKB m = true := by
        unfold lastMsgOKB
        rw [hm]
      dsimp only
      rw [hlast]
      rfl
  | cons r rest ih =>
    intro hr conv st hp hl
    have hrr := hr r (List.mem_cons_self r rest)
    have hrest := fun x hx => hr x (List.mem_cons_of_mem r hx)
    unfold runLoop
    dsimp only
    by_cases hstop : r.stop = StopSignal.endTurn
    · rw [if_pos hstop]
      exact convOKB_snoc conv _ hp hl
        (lastMsgOKB_assistant_of_no_calls r.content (hrr.1 hstop))
    · rw [if_neg hstop]
      cases hc : toolCalls r.content with
      | nil =>
        exact convOKB_snoc conv _ hp hl
          (lastMsgOKB_assistant_of_no_calls r.content hc)
      | cons c cs =>
        dsimp only
        apply ih hrest
        · rw [pairsOK_append_one, List.getLast?_concat, pairsOK_append_one, hp]
          dsimp only
          have hok : okPairB ⟨Role.assistant, r.content⟩
              ⟨Role.user, (execCalls exec st (c :: cs)).2⟩ = true := by
            rw [← hc]
            exact okPairB_exec exec r.content st hrr.2
          rw [hok]
          cases hg : conv.getLast? with
          | none => rfl
          | some m =>
            have hm := hl m hg
            have hok2 : okPairB m ⟨Role.assistant, r.content⟩ = true := by
              unfold okPairB
              rw [hm]
            dsimp only
            rw [hok2]
            rfl
        · intro m hm
          rw [List.getLast?_concat] at hm
          injection hm with hm2
          rw [← hm2]

/-- C2: in every conversation produced by the loop — under the protocol
assumptions that a response signalling end of turn carries no `ToolUse`
blocks (the spec's terminal state is a response of only `Text` blocks) and
that the endpoint-generated call identifiers within one response are
distinct — every assistant message's `ToolUse` blocks are answered in the
immediately following user message by exactly one `ToolResult` with the same
identifier, and that user message holds no `ToolResult` matching none of
them; this holds in particular for completed runs returning an answer. -/
theorem C2_tool_use_answered_exactly_once {σ : Type}
    (exec : σ → String → List (String × String) → σ × String)
    (responses : List ModelResponse) (userMessage : String) (st : σ) (answer : String)
    (hterm : ∀ r ∈ responses, r.stop = StopSignal.endTurn → toolCalls r.content = [])
    (hids : ∀ r ∈ responses, (toolCallIds r.content).Nodup)
    (hdone : (runAgent exec responses userMessage st).answer = some answer) :
    convOKB (runAgent exec responses userMessage st).conv = true := by
  unfold runAgent
  apply runLoop_conv_invariant exec responses (fun r hr => ⟨hterm r hr, hids r hr⟩)
  · rfl
  · intro m hm
    rw [List.getLast?_singleton] at hm
    injection hm with hm2
    rw [← hm2]

/-- Witness for C2 on a concrete scripted run: one tool-use round (a single
`list_files` call answered by the executor) followed by a final text
response. -/
theorem C2_tool_use_answered_exactly_once_witness :
    convOKB (runAgent sampleExec
      [⟨StopSignal.toolUseRequested, [ContentBlock.toolUse "id1" "list_files" []]⟩,
       ⟨StopSignal.endTurn, [ContentBlock.text "done"]⟩] "hi" 0).conv = true :=
  C2_tool_use_answered_exactly_once sampleExec
    [⟨StopSignal.toolUseRequested, [ContentBlock.toolUse "id1" "list_files" []]⟩,
     ⟨StopSignal.endTurn, [ContentBlock.text "done"]⟩] "hi" 0 "done"
    (by decide) (by decide) rfl

/-- C6: when the endpoint's first response signals end of turn and carries no
`ToolUse` block, the loop performs exactly one model round-trip (the round
counter is 1 and the remaining script is never consumed), the state is
untouched, and the final answer is the concatenation, in order, of the
response's `Text` block values. -/
theorem C6_end_turn_means_single_round_trip {σ : Type}
    (exec : σ → String → List (String × String) → σ × String)
    (r : ModelResponse) (rest : List ModelResponse) (userMessage : String) (st : σ)
    (hstop : r.stop = StopSignal.endTurn) (hnouse : toolCalls r.content = []) :
    runAgent exec (r :: rest) userMessage st =
      ⟨[⟨Role.user, [ContentBlock.text userMessage]⟩, ⟨Role.assistant, r.content⟩],
       st, some (concatTexts r.content), 1⟩ := by
  unfold runAgent runLoop
  rw [if_pos hstop]
  rfl

/-- Witness for C6 on a concrete run: a single end-turn response with two
text blocks, concatenated in order into the final answer. -/
theorem C6_end_turn_means_single_round_trip_witness :
    runAgent sampleExec
      [⟨StopSignal.endTurn, [ContentBlock.text "hello ", ContentBlock.text "world"]⟩]
      "hi" 0 =
      ⟨[⟨Role.user, [ContentBlock.text "hi"]⟩,
        ⟨Role.assistant, [ContentBlock.text "hello ", ContentBlock.text "world"]⟩],
       0, some "hello world", 1⟩ := by
  rw [C6_end_turn_means_single_round_trip sampleExec
    ⟨StopSignal.endTurn, [ContentBlock.text "hello ", ContentBlock.text "world"]⟩
    [] "hi" 0 rfl rfl]
  rfl
